import Mathlib

/-!
Verification of the MilkDrop-Shake audio core against its specification.

The development shallowly embeds the audio-analysis code of
`src/services/voiceEngine.ts` (spectral analyzer, asymmetric temporal
smoother, beat detector, offline tempo estimator) and the render-clock logic
of the shader-preview component (`src/unnamed/part_000`, `render`).

JavaScript numbers are modelled as `Option ℚ`: `some q` is a finite value and
`none` stands for a non-finite result (NaN or an infinity).  In this code a
non-finite value can only arise from a division by zero; every numerator that
can meet a zero divisor is itself zero, so the non-finite value produced is
NaN.  All comparisons the code performs against a possibly non-finite value
agree with the model: any comparison involving NaN is false in JavaScript,
and the single place an infinity could appear (the threshold `0.4 /
sensitivity` for `sensitivity = 0`) is only used on the small side of a `>`
comparison, which is false for `+Infinity` as well.
-/

namespace MDShake

/-- A JavaScript number: finite (`some q`) or non-finite (`none`). -/
abbrev JSNum := Option ℚ

/-- Addition; non-finite absorbs (NaN propagates). -/
def jadd : JSNum → JSNum → JSNum
  | some a, some b => some (a + b)
  | _, _ => none

/-- Subtraction; non-finite absorbs. -/
def jsub : JSNum → JSNum → JSNum
  | some a, some b => some (a - b)
  | _, _ => none

/-- Multiplication; non-finite absorbs. -/
def jmul : JSNum → JSNum → JSNum
  | some a, some b => some (a * b)
  | _, _ => none

/-- Division.  A zero divisor gives a non-finite result (NaN when the
numerator is zero too, which is the only case this program reaches). -/
def jdiv : JSNum → JSNum → JSNum
  | some a, some b => if b = 0 then none else some (a / b)
  | _, _ => none

/-- Strict greater-than; false whenever either side is non-finite, exactly as
JavaScript comparisons involving NaN (and `x > +Infinity`) are false. -/
def jgt : JSNum → JSNum → Bool
  | some a, some b => decide (b < a)
  | _, _ => false

/-- Strict less-than; false whenever either side is non-finite. -/
def jlt : JSNum → JSNum → Bool
  | some a, some b => decide (a < b)
  | _, _ => false

/-- A JS number that is finite and lies in the unit interval. -/
def inUnit (x : JSNum) : Prop := ∃ q : ℚ, x = some q ∧ 0 ≤ q ∧ q ≤ 1

/-- `src/types.ts`: the per-frame voice state record. -/
structure VoiceState where
  volume : JSNum
  pitch : JSNum
  bass : JSNum
  mid : JSNum
  treble : JSNum
  silence : Bool
  beatIntensity : JSNum
deriving Repr, DecidableEq

/-- `src/types.ts`: beat-detection configuration. -/
structure BeatSettings where
  enabled : Bool
  amplitude : ℚ
  sensitivity : ℚ
  decay : ℚ
deriving Repr, DecidableEq

/-- All six numeric fields of a `VoiceState` are finite and in `[0,1]`. -/
def stateInUnit (v : VoiceState) : Prop :=
  inUnit v.volume ∧ inUnit v.pitch ∧ inUnit v.bass ∧ inUnit v.mid ∧
    inUnit v.treble ∧ inUnit v.beatIntensity

/-- voiceEngine.ts line 21: accumulate smoothing rate 0.04. -/
def SMOOTH_ACCUM : ℚ := 4 / 100

/-- voiceEngine.ts line 22: decay smoothing rate 0.02. -/
def SMOOTH_DECAY : ℚ := 2 / 100

/-- voiceEngine.ts lines 67-70: asymmetric exponential smoothing on finite
values. -/
def applyMorphicSmoothing (current target : ℚ) : ℚ :=
  let factor := if target > current then SMOOTH_ACCUM else SMOOTH_DECAY
  current + (target - current) * factor

/-- The smoothing step on JS numbers.  If either argument is non-finite the
result is non-finite: in the source, `target > current` is then false, the
decay branch is taken, and `current + (target - current) * factor` is NaN. -/
def applyMorphicSmoothingJS : JSNum → JSNum → JSNum
  | some c, some t => some (applyMorphicSmoothing c t)
  | _, _ => none

/-- Accumulators of the per-bin loop in `getAudioState`
(voiceEngine.ts lines 77-98). -/
structure Accum where
  sum : ℚ
  bass : ℚ
  mid : ℚ
  treble : ℚ
  peakVal : ℚ
  peakFreq : ℕ
deriving Repr, DecidableEq

/-- Loop accumulators before the first iteration (all zero). -/
def initAccum : Accum := ⟨0, 0, 0, 0, 0, 0⟩

/-- One iteration of the bin loop (voiceEngine.ts lines 88-98): add the
normalized magnitude to the total, track the (first) strict maximum, and add
the magnitude to the band selected by the bin position. -/
def loopStep (bE mE i : ℕ) (val : ℚ) (a : Accum) : Accum :=
  let a1 := { a with sum := a.sum + val }
  let a2 := if val > a1.peakVal then { a1 with peakVal := val, peakFreq := i } else a1
  if i < bE then { a2 with bass := a2.bass + val }
  else if i < mE then { a2 with mid := a2.mid + val }
  else { a2 with treble := a2.treble + val }

/-- The bin loop, iterating `loopStep` over the magnitudes from index `i`. -/
def runLoop (bE mE : ℕ) : ℕ → List ℚ → Accum → Accum
  | _, [], a => a
  | i, v :: rest, a => runLoop bE mE (i + 1) rest (loopStep bE mE i v a)

/-- voiceEngine.ts line 85: `bEnd = Math.floor(len * 0.1)`. -/
def bEnd (len : ℕ) : ℕ := ⌊(len : ℚ) * (1 / 10)⌋₊

/-- voiceEngine.ts line 86: `mEnd = Math.floor(len * 0.4)`. -/
def mEnd (len : ℕ) : ℕ := ⌊(len : ℚ) * (4 / 10)⌋₊

/-- Result of one spectral-analysis pass (voiceEngine.ts lines 84-103):
the raw band means and the peak-bin index, before smoothing. -/
structure RawAnalysis where
  rawVol : JSNum
  rawBass : JSNum
  rawMid : JSNum
  rawTreble : JSNum
  peakFreq : ℕ
deriving Repr, DecidableEq

/-- One spectral-analysis pass over the normalized magnitudes
`vals[i] = dataArray[i] / 255` (voiceEngine.ts lines 84-103).  Band
divisors are the JS subtractions `mEnd - bEnd` and `len - mEnd`. -/
def spectralPass (vals : List ℚ) : RawAnalysis :=
  let len := vals.length
  let bE := bEnd len
  let mE := mEnd len
  let a := runLoop bE mE 0 vals initAccum
  { rawVol := jdiv (some a.sum) (some (len : ℚ))
    rawBass := jdiv (some a.bass) (some (bE : ℚ))
    rawMid := jdiv (some a.mid) (some ((mE : ℚ) - (bE : ℚ)))
    rawTreble := jdiv (some a.treble) (some ((len : ℚ) - (mE : ℚ)))
    peakFreq := a.peakFreq }

/-- Beat-detector state (voiceEngine.ts lines 17, 24, 25): the published
intensity, the previous frame's raw bass energy, and the time of the last
trigger (`beatTimer`). -/
structure BeatState where
  beatIntensity : JSNum
  lastBassEnergy : JSNum
  beatTimer : ℚ
deriving Repr, DecidableEq

/-- The trigger condition of voiceEngine.ts line 107, observable as "an onset
fired this frame": detection enabled, the bass-energy jump exceeds
`0.4 / sensitivity`, and more than 200 ms passed since `beatTimer`. -/
def onsetFired (bs : BeatSettings) (rawBass : JSNum) (now : ℚ) (s : BeatState) : Bool :=
  bs.enabled &&
    (jgt (jsub rawBass s.lastBassEnergy) (jdiv (some ((4 : ℚ) / 10)) (some bs.sensitivity)) &&
      decide (now - s.beatTimer > 200))

/-- voiceEngine.ts lines 105-115: one frame of the beat detector.  When
enabled, a qualifying bass jump outside the 200 ms refractory window sets the
intensity to 1.0 and records the time; the decay multiplication then runs
unconditionally, after any trigger.  When disabled the intensity is forced to
0.  `lastBassEnergy` is updated in every case (line 115). -/
def beatStep (bs : BeatSettings) (rawBass : JSNum) (now : ℚ) (s : BeatState) : BeatState :=
  let s1 :=
    if bs.enabled then
      let energyDiff := jsub rawBass s.lastBassEnergy
      let s2 :=
        if jgt energyDiff (jdiv (some ((4 : ℚ) / 10)) (some bs.sensitivity)) &&
            decide (now - s.beatTimer > 200) then
          { s with beatIntensity := some 1, beatTimer := now }
        else s
      { s2 with beatIntensity := jmul s2.beatIntensity (some bs.decay) }
    else
      { s with beatIntensity := some 0 }
  { s1 with lastBassEnergy := rawBass }

/-- The module-level mutable state of voiceEngine.ts: the published
`state` record (lines 10-18) plus the beat detector's `lastBassEnergy`
(line 24) and `beatTimer` (line 25). -/
structure EngineState where
  state : VoiceState
  lastBassEnergy : JSNum
  beatTimer : ℚ
deriving Repr, DecidableEq

/-- voiceEngine.ts lines 10-18: the initial published state. -/
def initVoiceState : VoiceState :=
  { volume := some 0, pitch := some 0, bass := some 0, mid := some 0,
    treble := some 0, silence := true, beatIntensity := some 0 }

/-- The engine's state at module load (lines 10-18, 24, 25). -/
def initEngineState : EngineState :=
  { state := initVoiceState, lastBassEnergy := some 0, beatTimer := 0 }

/-- The per-call environment of `getAudioState`: whether `analyser` and
`dataArray` are non-null, the normalized magnitudes `dataArray[i] / 255`
read this frame, and the value of `performance.now()`. -/
structure EngineInput where
  attached : Bool
  vals : List ℚ
  now : ℚ
deriving Repr, DecidableEq

/-- voiceEngine.ts lines 72-125: one call to `getAudioState`.  With no
analyser attached it returns a copy of the current state with `silence`
forced true and changes nothing.  Otherwise it runs one spectral pass, the
beat detector, and the asymmetric smoother, publishing and returning the new
state. -/
def getAudioState (bs : BeatSettings) (inp : EngineInput) (es : EngineState) :
    VoiceState × EngineState :=
  if !inp.attached then ({ es.state with silence := true }, es)
  else
    let r := spectralPass inp.vals
    let len := inp.vals.length
    let isSilent := jlt r.rawVol (some (5 / 1000))
    let b0 : BeatState :=
      { beatIntensity := es.state.beatIntensity, lastBassEnergy := es.lastBassEnergy,
        beatTimer := es.beatTimer }
    let b1 := beatStep bs r.rawBass inp.now b0
    let st : VoiceState :=
      { volume := applyMorphicSmoothingJS es.state.volume r.rawVol
        pitch := applyMorphicSmoothingJS es.state.pitch
          (jdiv (some (r.peakFreq : ℚ)) (some (len : ℚ)))
        bass := applyMorphicSmoothingJS es.state.bass r.rawBass
        mid := applyMorphicSmoothingJS es.state.mid r.rawMid
        treble := applyMorphicSmoothingJS es.state.treble r.rawTreble
        silence := isSilent
        beatIntensity := b1.beatIntensity }
    (st, { state := st, lastBassEnergy := b1.lastBassEnergy, beatTimer := b1.beatTimer })

/-- A sequence of `getAudioState` calls threaded through the engine state. -/
def runEngine (es : EngineState) : List (BeatSettings × EngineInput) → EngineState
  | [] => es
  | (bs, inp) :: rest => runEngine (getAudioState bs inp es).2 rest

/-- A sequence of beat-detector frames, each a raw bass value and a
timestamp, threaded through the detector state. -/
def runBeat (bs : BeatSettings) (s : BeatState) : List (JSNum × ℚ) → BeatState
  | [] => s
  | (rb, now) :: rest => runBeat bs (beatStep bs rb now s) rest

/-- The onset flags of a frame sequence, in order. -/
def firedList (bs : BeatSettings) (s : BeatState) : List (JSNum × ℚ) → List Bool
  | [] => []
  | (rb, now) :: rest => onsetFired bs rb now s :: firedList bs (beatStep bs rb now s) rest

/-- Iterated smoothing of one channel against a constant target. -/
def smoothIter (target c0 : ℚ) : ℕ → ℚ
  | 0 => c0
  | n + 1 => applyMorphicSmoothing (smoothIter target c0 n) target

end MDShake

namespace MDShake

/-- One frame of the shader preview component (`src/unnamed/part_000`):
the frame duration, the governing silence flag, and the configured
viscosity. -/
structure RenderFrame where
  dt : ℚ
  silence : Bool
  viscosity : ℚ
deriving Repr, DecidableEq

/-- part_000 lines 113-116: the topological lock.  During silence the
synthetic clock is left untouched; otherwise it advances by
`dt * (1 / (viscosity + 0.1))`. -/
def advanceClock (time : ℚ) (f : RenderFrame) : ℚ :=
  if !f.silence then time + f.dt * (1 / (f.viscosity + 1 / 10)) else time

/-- The synthetic clock across a sequence of render frames. -/
def runClock (time : ℚ) : List RenderFrame → ℚ
  | [] => time
  | f :: rest => runClock (advanceClock time f) rest

/-- voiceEngine.ts lines 170-174: consecutive differences of the peak
times. -/
def pairDiffs : List ℚ → List ℚ
  | a :: b :: rest => (b - a) :: pairDiffs (b :: rest)
  | _ => []

/-- voiceEngine.ts line 172: keep only intervals strictly between 0.3 s and
1.5 s. -/
def retainedIntervals (peaks : List ℚ) : List ℚ :=
  (pairDiffs peaks).filter (fun d => decide ((3 : ℚ) / 10 < d) && decide (d < (3 : ℚ) / 2))

/-- voiceEngine.ts line 180: `while (tempo < 70) tempo *= 2`.  The source
loop does not terminate for `tempo ≤ 0`; this program only reaches it with
`tempo = 60 / avgInterval > 40`, where the added positivity guard never
fires. -/
def foldUp (t : ℚ) : ℚ :=
  if h : 0 < t ∧ t < 70 then foldUp (2 * t) else t
termination_by (⌈(70 : ℚ) / t⌉₊ : ℕ)
decreasing_by
  have h1 : (1 : ℚ) < 70 / t := (one_lt_div h.1).mpr h.2
  have h2 : 2 ≤ ⌈(70 : ℚ) / t⌉₊ := by
    have := Nat.lt_ceil.mpr (by exact_mod_cast h1 : ((1 : ℕ) : ℚ) < 70 / t)
    omega
  have h3 : (70 : ℚ) / (2 * t) = 70 / t / 2 := by
    rw [div_div]; ring_nf
  have h4 : ⌈(70 : ℚ) / (2 * t)⌉₊ ≤ ⌈(70 : ℚ) / t⌉₊ - 1 := by
    rw [h3]
    apply Nat.ceil_le.mpr
    have hle : (70 : ℚ) / t ≤ (⌈(70 : ℚ) / t⌉₊ : ℚ) := Nat.le_ceil _
    have hc : (2 : ℚ) ≤ (⌈(70 : ℚ) / t⌉₊ : ℚ) := by exact_mod_cast h2
    have : ((⌈(70 : ℚ) / t⌉₊ - 1 : ℕ) : ℚ) = (⌈(70 : ℚ) / t⌉₊ : ℚ) - 1 := by
      have : (1 : ℕ) ≤ ⌈(70 : ℚ) / t⌉₊ := by omega
      push_cast [this]; ring
    rw [this]
    linarith
  omega

/-- voiceEngine.ts line 181: `while (tempo > 180) tempo /= 2`. -/
def foldDown (t : ℚ) : ℚ :=
  if h : 180 < t then foldDown (t / 2) else t
termination_by (⌈t⌉₊ : ℕ)
decreasing_by
  have h2 : 2 ≤ ⌈t⌉₊ := by
    have := Nat.lt_ceil.mpr (by exact_mod_cast (by linarith : (1 : ℚ) < t) : ((1 : ℕ) : ℚ) < t)
    omega
  have h4 : ⌈t / 2⌉₊ ≤ ⌈t⌉₊ - 1 := by
    apply Nat.ceil_le.mpr
    have hle : t ≤ (⌈t⌉₊ : ℚ) := Nat.le_ceil _
    have : ((⌈t⌉₊ - 1 : ℕ) : ℚ) = (⌈t⌉₊ : ℚ) - 1 := by
      have : (1 : ℕ) ≤ ⌈t⌉₊ := by omega
      push_cast [this]; ring
    rw [this]
    linarith
  omega

/-- voiceEngine.ts lines 166-183: the tempo estimate from the detected peak
times.  Defaults to 120 BPM with fewer than two peaks or with no retained
interval; otherwise 60 over the average retained interval, octave-folded by
the two while loops. -/
def tempoFromPeaks (peaks : List ℚ) : ℚ :=
  if peaks.length > 1 then
    let intervals := retainedIntervals peaks
    if intervals.length > 0 then
      let avgInterval := intervals.sum / (intervals.length : ℚ)
      foldDown (foldUp (60 / avgInterval))
    else 120
  else 120

/-- voiceEngine.ts lines 155-164: slide a 1024-sample window over the
decoded buffer; a window whose maximum absolute sample exceeds the threshold
(`1.5 * rms` in the source; the RMS needs a square root and is passed in
here as a parameter) marks a peak at its start time `i / sampleRate`. -/
def findPeaks (sampleRate threshold : ℚ) (i : ℕ) (channelData : List ℚ) : List ℚ :=
  if channelData = [] then []
  else
    let w := channelData.take 1024
    let m := w.foldl (fun acc v => if |v| > acc then |v| else acc) 0
    let rest := channelData.drop 1024
    if m > threshold then
      (i : ℚ) / sampleRate :: findPeaks sampleRate threshold (i + 1024) rest
    else
      findPeaks sampleRate threshold (i + 1024) rest
termination_by channelData.length
decreasing_by
  all_goals
    simp only [List.length_drop]
    have : channelData.length ≠ 0 := by
      simpa [List.length_eq_zero] using (by assumption : ¬channelData = [])
    omega

end MDShake

namespace MDShake

/-! ### Helper lemmas -/

/-- A non-finite value is not a unit-interval value. -/
lemma not_inUnit_none : ¬ inUnit none := by
  rintro ⟨q, h, -⟩
  exact Option.noConfusion h

/-- Smoothing against a non-finite target is non-finite. -/
lemma applyMorphicSmoothingJS_none (c : JSNum) :
    applyMorphicSmoothingJS c none = none := by
  cases c <;> rfl

/-- The new `lastBassEnergy` after a beat step is the frame's raw bass. -/
lemma beatStep_lastBassEnergy (bs : BeatSettings) (rb : JSNum) (now : ℚ) (s : BeatState) :
    (beatStep bs rb now s).lastBassEnergy = rb := by
  unfold beatStep
  rcases bs.enabled <;> simp

/-- An unattached call returns the current state with `silence` forced true
and leaves the engine state unchanged. -/
lemma getAudioState_unattached (bs : BeatSettings) (inp : EngineInput) (es : EngineState)
    (h : inp.attached = false) :
    getAudioState bs inp es = ({ es.state with silence := true }, es) := by
  unfold getAudioState
  simp [h]

/-- A run of unattached calls leaves the engine state unchanged. -/
lemma runEngine_unattached (ps : List (BeatSettings × EngineInput)) (es : EngineState)
    (h : ∀ p ∈ ps, p.2.attached = false) : runEngine es ps = es := by
  induction ps with
  | nil => rfl
  | cons p rest ih =>
      have hp := h p (List.mem_cons_self p rest)
      have hrest : ∀ q ∈ rest, q.2.attached = false := fun q hq => h q (List.mem_cons_of_mem p hq)
      calc runEngine es (p :: rest)
          = runEngine (getAudioState p.1 p.2 es).2 rest := rfl
        _ = runEngine es rest := by rw [getAudioState_unattached p.1 p.2 es hp]
        _ = es := ih hrest

/-- The floor boundary of the bass band is integer division by 10. -/
lemma bEnd_eq (len : ℕ) : bEnd len = len / 10 := by
  unfold bEnd
  rw [mul_one_div, show ((10 : ℚ)) = ((10 : ℕ) : ℚ) by norm_num,
    Nat.floor_div_nat ((len : ℕ) : ℚ) 10, Nat.floor_natCast]

/-- The floor boundary of the mid band is `4 * len / 10` rounded down. -/
lemma mEnd_eq (len : ℕ) : mEnd len = 4 * len / 10 := by
  unfold mEnd
  have h : (len : ℚ) * (4 / 10) = ((4 * len : ℕ) : ℚ) / ((10 : ℕ) : ℚ) := by
    push_cast; ring
  rw [h, Nat.floor_div_nat ((4 * len : ℕ) : ℚ) 10, Nat.floor_natCast]

/-! ### C6: the synthetic clock and the topological lock -/

/-- C6 (confirmed): the synthetic animation clock is frozen across any run of
silent frames regardless of their `dt`; in a non-silent frame it advances by
`dt * (1 / (viscosity + 0.1))`; and across arbitrary frames with
non-negative `dt` and viscosity it is monotonically non-decreasing. -/
theorem C6_topological_lock :
    (∀ (time : ℚ) (frames : List RenderFrame),
        (∀ f ∈ frames, f.silence = true) → runClock time frames = time) ∧
    (∀ (time : ℚ) (f : RenderFrame), f.silence = false →
        advanceClock time f = time + f.dt * (1 / (f.viscosity + 1 / 10))) ∧
    (∀ (time : ℚ) (frames : List RenderFrame),
        (∀ f ∈ frames, 0 ≤ f.dt ∧ 0 ≤ f.viscosity) → time ≤ runClock time frames) := by
  refine ⟨?_, ?_, ?_⟩
  · intro time frames h
    induction frames generalizing time with
    | nil => rfl
    | cons f rest ih =>
        have hf : f.silence = true := h f (List.mem_cons_self f rest)
        have hstep : advanceClock time f = time := by unfold advanceClock; simp [hf]
        have : runClock time (f :: rest) = runClock (advanceClock time f) rest := rfl
        rw [this, hstep]
        exact ih _ (fun g hg => h g (List.mem_cons_of_mem f hg))
  · intro time f h
    unfold advanceClock
    simp [h]
  · intro time frames h
    induction frames generalizing time with
    | nil => exact le_refl _
    | cons f rest ih =>
        have hf := h f (List.mem_cons_self f rest)
        have hstep : time ≤ advanceClock time f := by
          unfold advanceClock
          rcases hs : f.silence with _ | _
          · simp only [hs, Bool.not_false, if_true]
            have hpos : 0 < f.viscosity + 1 / 10 := by linarith [hf.2]
            have : 0 ≤ f.dt * (1 / (f.viscosity + 1 / 10)) :=
              mul_nonneg hf.1 (le_of_lt (one_div_pos.mpr hpos))
            linarith
          · simp [hs]
        have htail : advanceClock time f ≤ runClock (advanceClock time f) rest :=
          ih _ (fun g hg => h g (List.mem_cons_of_mem f hg))
        exact le_trans hstep htail

/-- C6 witness: a concrete silent run holds the clock at 7, and a concrete
non-silent frame advances it by `dt * (1 / (viscosity + 0.1))`. -/
theorem C6_topological_lock_witness :
    runClock 7 [⟨5, true, 3⟩, ⟨2, true, 0⟩] = 7 ∧
    advanceClock 7 ⟨5, false, 3⟩ = 7 + 5 * (1 / (3 + 1 / 10)) ∧
    (7 : ℚ) ≤ runClock 7 [⟨5, false, 3⟩, ⟨2, true, 0⟩] :=
  ⟨C6_topological_lock.1 7 _ (by decide),
   C6_topological_lock.2.1 7 ⟨5, false, 3⟩ (by decide),
   C6_topological_lock.2.2 7 _ (by decide)⟩

/-! ### C8: fail-soft default state without a provider -/

/-- C8 (confirmed): when `getAudioState` is called with no audio provider
ever attached — the analyser is null now and in every preceding call — it
returns the all-zero `VoiceState` with `silence = true`, and as a total
function it raises nothing. -/
theorem C8_fail_soft :
    ∀ (pre : List (BeatSettings × EngineInput)) (bs : BeatSettings) (inp : EngineInput),
      (∀ p ∈ pre, p.2.attached = false) → inp.attached = false →
      (getAudioState bs inp (runEngine initEngineState pre)).1 =
        { volume := some 0, pitch := some 0, bass := some 0, mid := some 0,
          treble := some 0, silence := true, beatIntensity := some 0 } := by
  intro pre bs inp hpre hinp
  rw [runEngine_unattached pre initEngineState hpre,
      getAudioState_unattached bs inp initEngineState hinp]
  rfl

/-- C8 witness: a concrete unattached call returns the default state. -/
theorem C8_fail_soft_witness :
    (getAudioState ⟨true, 1, 1, 1/2⟩ ⟨false, [1/2], 42⟩ (runEngine initEngineState [])).1 =
      { volume := some 0, pitch := some 0, bass := some 0, mid := some 0,
        treble := some 0, silence := true, beatIntensity := some 0 } :=
  C8_fail_soft [] ⟨true, 1, 1, 1/2⟩ ⟨false, [1/2], 42⟩ (by decide) (by decide)

end MDShake


namespace MDShake

/-! ### C9 and C10: zero-length and short snapshots -/

/-- The spectral pass of the empty snapshot: every mean is a 0/0 division,
hence non-finite. -/
lemma spectralPass_nil : spectralPass [] = ⟨none, none, none, none, 0⟩ := by
  have h1 : bEnd 0 = 0 := by rw [bEnd_eq]
  have h2 : mEnd 0 = 0 := by rw [mEnd_eq]
  unfold spectralPass
  simp [h1, h2, runLoop, initAccum, jdiv]

/-- Everything `getAudioState` publishes from an empty snapshot: `silence`
is false (a NaN comparison) and every smoothed channel and the stored
`lastBassEnergy` are non-finite. -/
lemma getAudioState_nil (bs : BeatSettings) (es : EngineState) (now : ℚ) :
    (getAudioState bs ⟨true, [], now⟩ es).1.silence = false ∧
    (getAudioState bs ⟨true, [], now⟩ es).1.volume = none ∧
    (getAudioState bs ⟨true, [], now⟩ es).1.pitch = none ∧
    (getAudioState bs ⟨true, [], now⟩ es).1.bass = none ∧
    (getAudioState bs ⟨true, [], now⟩ es).1.mid = none ∧
    (getAudioState bs ⟨true, [], now⟩ es).1.treble = none ∧
    (getAudioState bs ⟨true, [], now⟩ es).2.lastBassEnergy = none := by
  unfold getAudioState
  simp [spectralPass_nil, applyMorphicSmoothingJS_none, beatStep_lastBassEnergy, jdiv, jlt]

/-- C9 (corrected): a zero-length snapshot raises no error and the previous
state is not retained: `rawVolume` is the non-finite 0/0, so `silence` is
computed false, and every smoothed channel of the published `VoiceState`
becomes non-finite, as does the stored `lastBassEnergy`. -/
theorem C9_empty_snapshot :
    ∀ (bs : BeatSettings) (es : EngineState) (now : ℚ),
      (getAudioState bs ⟨true, [], now⟩ es).1.silence = false ∧
      (getAudioState bs ⟨true, [], now⟩ es).1.volume = none ∧
      (getAudioState bs ⟨true, [], now⟩ es).1.pitch = none ∧
      (getAudioState bs ⟨true, [], now⟩ es).1.bass = none ∧
      (getAudioState bs ⟨true, [], now⟩ es).1.mid = none ∧
      (getAudioState bs ⟨true, [], now⟩ es).1.treble = none ∧
      (getAudioState bs ⟨true, [], now⟩ es).2.lastBassEnergy = none :=
  fun bs es now => getAudioState_nil bs es now

/-- C9 counterexample: at the concrete empty snapshot, with a previous
published volume of 1/2, the engine does not retain the previous state (the
new volume is non-finite, not 1/2) and computes `silence = false`, against
the claim that the previous `VoiceState` is kept and an error surfaced. -/
theorem C9_empty_snapshot_counterexample :
    (getAudioState ⟨true, 1, 1, 1/2⟩ ⟨true, [], 5⟩
        ⟨⟨some (1/2), some 0, some 0, some 0, some 0, false, some 0⟩, some 0, 0⟩).1.volume
      = none ∧
    (none : JSNum) ≠ some ((1 : ℚ)/2) ∧
    (getAudioState ⟨true, 1, 1, 1/2⟩ ⟨true, [], 5⟩
        ⟨⟨some (1/2), some 0, some 0, some 0, some 0, false, some 0⟩, some 0, 0⟩).1.silence
      = false :=
  ⟨(getAudioState_nil _ _ _).2.1, by decide, (getAudioState_nil _ _ _).1⟩

/-- With `1 ≤ N ≤ 9` bins the bass band is empty and the raw bass mean, the
published bass channel, and the stored `lastBassEnergy` are all the
non-finite result of a division by zero. -/
lemma short_snapshot_bass_none (bs : BeatSettings) (es : EngineState) (vals : List ℚ)
    (now : ℚ) (h1 : 1 ≤ vals.length) (h9 : vals.length ≤ 9) :
    bEnd vals.length = 0 ∧
    (spectralPass vals).rawBass = none ∧
    (getAudioState bs ⟨true, vals, now⟩ es).1.bass = none ∧
    (getAudioState bs ⟨true, vals, now⟩ es).2.lastBassEnergy = none := by
  have hb : bEnd vals.length = 0 := by rw [bEnd_eq]; omega
  have hraw : (spectralPass vals).rawBass = none := by
    unfold spectralPass
    simp [hb, jdiv]
  have hbass : (getAudioState bs ⟨true, vals, now⟩ es).1.bass = none := by
    unfold getAudioState
    simp [hraw, applyMorphicSmoothingJS_none]
  have hlast : (getAudioState bs ⟨true, vals, now⟩ es).2.lastBassEnergy = none := by
    unfold getAudioState
    simp [hraw, beatStep_lastBassEnergy]
  exact ⟨hb, hraw, hbass, hlast⟩

/-- C10 (confirmed): for every snapshot with `1 ≤ N ≤ 9`, the bass band is
empty (`Math.floor(N * 0.1) = 0`), the raw bass mean is a division by zero,
and both the published `bass` channel and the beat detector's stored
`lastBassEnergy` come out non-finite — the in-[0,1] guarantee needs `N ≥ 10`,
not mere non-emptiness. -/
theorem C10_short_snapshot :
    ∀ (bs : BeatSettings) (es : EngineState) (vals : List ℚ) (now : ℚ),
      1 ≤ vals.length → vals.length ≤ 9 →
      bEnd vals.length = 0 ∧
      (spectralPass vals).rawBass = none ∧
      ¬ inUnit (getAudioState bs ⟨true, vals, now⟩ es).1.bass ∧
      (getAudioState bs ⟨true, vals, now⟩ es).1.bass = none ∧
      (getAudioState bs ⟨true, vals, now⟩ es).2.lastBassEnergy = none := by
  intro bs es vals now h1 h9
  obtain ⟨hb, hraw, hbass, hlast⟩ := short_snapshot_bass_none bs es vals now h1 h9
  exact ⟨hb, hraw, by rw [hbass]; exact not_inUnit_none, hbass, hlast⟩

/-- C10 witness: the 3-bin snapshot `[1/2, 1/2, 1/2]` exhibits the empty
bass band and the non-finite published bass. -/
theorem C10_short_snapshot_witness :
    bEnd 3 = 0 ∧
    (spectralPass [1/2, 1/2, 1/2]).rawBass = none ∧
    ¬ inUnit (getAudioState ⟨true, 1, 1, 1/2⟩ ⟨true, [1/2, 1/2, 1/2], 0⟩ initEngineState).1.bass ∧
    (getAudioState ⟨true, 1, 1, 1/2⟩ ⟨true, [1/2, 1/2, 1/2], 0⟩ initEngineState).1.bass = none ∧
    (getAudioState ⟨true, 1, 1, 1/2⟩ ⟨true, [1/2, 1/2, 1/2], 0⟩
        initEngineState).2.lastBassEnergy = none := by
  have h := C10_short_snapshot ⟨true, 1, 1, 1/2⟩ initEngineState [1/2, 1/2, 1/2] 0
    (by decide) (by decide)
  simpa using h

end MDShake

namespace MDShake

/-! ### C2: the 100-bin end-to-end spectral scenario -/

/-- The bass band of a 100-bin snapshot is bins 0-9. -/
lemma bEnd_100 : bEnd 100 = 10 := by rw [bEnd_eq]

/-- The mid band of a 100-bin snapshot is bins 10-39. -/
lemma mEnd_100 : mEnd 100 = 40 := by rw [mEnd_eq]

/-- The bin loop over an appended list processes the second part after the
first, with the index advanced by the first part's length. -/
lemma runLoop_append (bE mE : ℕ) :
    ∀ (l1 l2 : List ℚ) (i : ℕ) (a : Accum),
      runLoop bE mE i (l1 ++ l2) a
        = runLoop bE mE (i + l1.length) l2 (runLoop bE mE i l1 a) := by
  intro l1
  induction l1 with
  | nil => intro l2 i a; simp [runLoop]
  | cons v rest ih =>
      intro l2 i a
      have h1 : runLoop bE mE i ((v :: rest) ++ l2) a
          = runLoop bE mE (i + 1) (rest ++ l2) (loopStep bE mE i v a) := rfl
      rw [h1, ih]
      have h2 : runLoop bE mE i (v :: rest) a
          = runLoop bE mE (i + 1) rest (loopStep bE mE i v a) := rfl
      rw [h2, List.length_cons]
      ring_nf

/-- A zero magnitude changes nothing in one loop iteration, as long as the
running peak value is non-negative. -/
lemma loopStep_zero (bE mE i : ℕ) (a : Accum) (h : 0 ≤ a.peakVal) :
    loopStep bE mE i 0 a = a := by
  obtain ⟨s, b, m, tr, pv, pf⟩ := a
  unfold loopStep
  split_ifs <;> simp [not_lt.mpr h]

/-- A run of zero-magnitude bins leaves the accumulators untouched. -/
lemma runLoop_replicate_zero (bE mE : ℕ) :
    ∀ (n i : ℕ) (a : Accum), 0 ≤ a.peakVal →
      runLoop bE mE i (List.replicate n (0 : ℚ)) a = a := by
  intro n
  induction n with
  | zero => intro i a h; rfl
  | succ n ih =>
      intro i a h
      rw [List.replicate_succ]
      have h1 : runLoop bE mE i ((0 : ℚ) :: List.replicate n 0) a
          = runLoop bE mE (i + 1) (List.replicate n 0) (loopStep bE mE i 0 a) := rfl
      rw [h1, loopStep_zero bE mE i a h, ih (i + 1) a h]

/-- The bin loop over 100 bins that are all 0 except bin 15 = 1: total 1,
bass 0, mid 1, treble 0, peak value 1 at bin 15. -/
lemma runLoop_bin15 :
    runLoop 10 40 0 (List.replicate 15 (0:ℚ) ++ (1:ℚ) :: List.replicate 84 0) initAccum
      = ⟨1, 0, 1, 0, 1, 15⟩ := by
  rw [runLoop_append, runLoop_replicate_zero 10 40 15 0 initAccum (by norm_num [initAccum])]
  have h1 : runLoop 10 40 (0 + (List.replicate 15 (0:ℚ)).length)
      ((1:ℚ) :: List.replicate 84 0) initAccum
      = runLoop 10 40 (0 + (List.replicate 15 (0:ℚ)).length + 1) (List.replicate 84 0)
        (loopStep 10 40 (0 + (List.replicate 15 (0:ℚ)).length) 1 initAccum) := rfl
  rw [h1]
  have hlen : 0 + (List.replicate 15 (0:ℚ)).length = 15 := by simp
  rw [hlen]
  have hstep : loopStep 10 40 15 1 initAccum = ⟨1, 0, 1, 0, 1, 15⟩ := by
    norm_num [loopStep, initAccum]
  rw [hstep]
  exact runLoop_replicate_zero 10 40 84 16 ⟨1, 0, 1, 0, 1, 15⟩ (by norm_num)

/-- One spectral pass over the bin-15 snapshot. -/
lemma spectralPass_bin15 :
    spectralPass (List.replicate 15 (0:ℚ) ++ (1:ℚ) :: List.replicate 84 0)
      = ⟨some (1/100), some 0, some (1/30), some 0, 15⟩ := by
  have hlen : (List.replicate 15 (0:ℚ) ++ (1:ℚ) :: List.replicate 84 0).length = 100 := by
    simp
  unfold spectralPass
  rw [hlen]
  simp only [bEnd_100, mEnd_100, runLoop_bin15, jdiv]
  norm_num

/-- C2 counterexample: on the 100-bin snapshot with only bin 15 = 1.0, the
code computes `rawBass = 0` (not ≈ 0.1) and `rawMid = 1/30` (not 0): bin 15
lies in the mid band (bins 10-39), not in the bass band (bins 0-9). -/
theorem C2_bin15_counterexample :
    (spectralPass (List.replicate 15 (0:ℚ) ++ (1:ℚ) :: List.replicate 84 0)).rawBass
        = some 0 ∧
    (0 : ℚ) ≠ 1/10 ∧
    (spectralPass (List.replicate 15 (0:ℚ) ++ (1:ℚ) :: List.replicate 84 0)).rawMid
        = some (1/30) ∧
    some ((1 : ℚ)/30) ≠ some (0 : ℚ) := by
  rw [spectralPass_bin15]
  refine ⟨rfl, by norm_num, rfl, by norm_num⟩

/-- C2 (corrected): the 100-bin snapshot with all magnitudes 0 except bin
15 = 1.0 yields `rawVolume = 0.01`, `peakBinIndex = 15`, and — because bin
15 lies in the mid band, bins 10-39, not the bass band, bins 0-9 —
`rawBass = 0`, `rawMid = 1/30 ≈ 0.033`, `rawTreble = 0`; the bands are
partitioned by position as bass = first 10% of bins, mid = next 30%,
treble = the remainder, each mean divided by that band's bin count. -/
theorem C2_bin15_scenario :
    (spectralPass (List.replicate 15 (0:ℚ) ++ (1:ℚ) :: List.replicate 84 0))
      = ⟨some (1/100), some 0, some (1/30), some 0, 15⟩ ∧
    bEnd 100 = 10 ∧ mEnd 100 = 40 :=
  ⟨spectralPass_bin15, bEnd_100, mEnd_100⟩

end MDShake

namespace MDShake

/-! ### Beat-detector lemmas, C3 and C5 -/

/-- A frame that fires: the intensity is set to 1.0 and then multiplied by
the decay (so `1 * decay` is published), the trigger time is recorded, and
the frame lies outside the refractory window. -/
lemma beatStep_fired (bs : BeatSettings) (rb : JSNum) (now : ℚ) (s : BeatState)
    (h : onsetFired bs rb now s = true) :
    (beatStep bs rb now s).beatIntensity = some (1 * bs.decay) ∧
    (beatStep bs rb now s).beatTimer = now ∧
    now - s.beatTimer > 200 := by
  unfold onsetFired at h
  rw [Bool.and_eq_true, Bool.and_eq_true] at h
  obtain ⟨he, hgt, ht⟩ := h
  have ht2 : now - s.beatTimer > 200 := of_decide_eq_true ht
  unfold beatStep
  simp [he, hgt, ht, jmul]
  exact ht2

/-- An enabled frame that does not fire: the intensity is only multiplied by
the decay and the trigger time is unchanged. -/
lemma beatStep_not_fired (bs : BeatSettings) (rb : JSNum) (now : ℚ) (s : BeatState)
    (he : bs.enabled = true) (h : onsetFired bs rb now s = false) :
    (beatStep bs rb now s).beatIntensity = jmul s.beatIntensity (some bs.decay) ∧
    (beatStep bs rb now s).beatTimer = s.beatTimer := by
  unfold onsetFired at h
  rw [he, Bool.true_and] at h
  unfold beatStep
  simp [he, h]

/-- The stored trigger time never decreases. -/
lemma beatStep_timer_le (bs : BeatSettings) (rb : JSNum) (now : ℚ) (s : BeatState) :
    s.beatTimer ≤ (beatStep bs rb now s).beatTimer := by
  rcases h : onsetFired bs rb now s with _ | _
  · rcases he : bs.enabled with _ | _
    · unfold beatStep
      simp [he]
    · exact le_of_eq (beatStep_not_fired bs rb now s he h).2.symm
  · have := beatStep_fired bs rb now s h
    rw [this.2.1]
    linarith [this.2.2]

/-- A frame that fires does so more than 200 ms after the stored trigger
time of the state it starts from (which only grows along the run). -/
lemma fired_after_timer (bs : BeatSettings) :
    ∀ (frames : List (JSNum × ℚ)) (s : BeatState) (j : ℕ),
      (firedList bs s frames).getD j false = true →
      (frames.getD j ((none : JSNum), (0 : ℚ))).2 > s.beatTimer + 200 := by
  intro frames
  induction frames with
  | nil => intro s j h; simp [firedList] at h
  | cons f rest ih =>
      intro s j h
      obtain ⟨rb, t⟩ := f
      rcases j with _ | n
      · rw [List.getD_cons_zero]
        have := (beatStep_fired bs rb t s (by simpa [firedList] using h)).2.2
        simp only
        linarith
      · rw [List.getD_cons_succ]
        have hrest : (firedList bs (beatStep bs rb t s) rest).getD n false = true := by
          simpa [firedList] using h
        have := ih (beatStep bs rb t s) n hrest
        have hmono := beatStep_timer_le bs rb t s
        linarith

/-- C5 (confirmed): an onset fires exactly when detection is enabled, the
bass-energy jump exceeds `0.4 / sensitivity`, and more than 200 ms have
passed since the stored last-trigger time; consequently any two onsets of a
run are more than 200 ms apart, and the concrete pair of above-threshold
jumps 50 ms apart produces exactly one onset. -/
theorem C5_refractory :
    (∀ (bs : BeatSettings) (rb lb now : ℚ) (s : BeatState),
        s.lastBassEnergy = some lb → bs.sensitivity ≠ 0 →
        (onsetFired bs (some rb) now s = true ↔
          (bs.enabled = true ∧ (4/10 / bs.sensitivity < rb - lb ∧ 200 < now - s.beatTimer)))) ∧
    (∀ (bs : BeatSettings) (s : BeatState) (frames : List (JSNum × ℚ)) (i j : ℕ),
        i < j →
        (firedList bs s frames).getD i false = true →
        (firedList bs s frames).getD j false = true →
        (frames.getD j ((none : JSNum), (0 : ℚ))).2
          - (frames.getD i ((none : JSNum), (0 : ℚ))).2 > 200) ∧
    firedList ⟨true, 1, 1, 1/2⟩ ⟨some 0, some 0, 0⟩ [(some 1, 1000), (some 2, 1050)]
      = [true, false] := by
  refine ⟨?_, ?_, ?_⟩
  · intro bs rb lb now s hlb hsens
    unfold onsetFired jgt jsub jdiv
    rw [hlb]
    simp [hsens, Bool.and_eq_true, decide_eq_true_iff]
  · intro bs s frames
    induction frames generalizing s with
    | nil => intro i j hij hi hj; simp [firedList] at hi
    | cons f rest ih =>
        intro i j hij hi hj
        obtain ⟨rb, t⟩ := f
        rcases i with _ | n
        · rcases j with _ | m
          · omega
          · rw [List.getD_cons_zero, List.getD_cons_succ]
            have hstep := beatStep_fired bs rb t s (by simpa [firedList] using hi)
            have hj2 : (firedList bs (beatStep bs rb t s) rest).getD m false = true := by
              simpa [firedList] using hj
            have := fired_after_timer bs rest (beatStep bs rb t s) m hj2
            rw [hstep.2.1] at this
            simp only
            linarith
        · rcases j with _ | m
          · omega
          · rw [List.getD_cons_succ, List.getD_cons_succ]
            exact ih (beatStep bs rb t s) n m (by omega)
              (by simpa [firedList] using hi) (by simpa [firedList] using hj)
  · norm_num [firedList, onsetFired, beatStep, jgt, jsub, jdiv, jmul]

/-- C5 witness: two qualifying jumps 300 ms apart both fire, their spacing
exceeds 200 ms by the refractory theorem, and the onset condition holds at a
concrete firing frame. -/
theorem C5_refractory_witness :
    (([((some 1 : JSNum), (1000 : ℚ)), (some 2, 1300)].getD 1 ((none : JSNum), (0 : ℚ))).2
      - ([((some 1 : JSNum), (1000 : ℚ)), (some 2, 1300)].getD 0 ((none : JSNum), (0 : ℚ))).2
      > 200) ∧
    onsetFired ⟨true, 1, 1, 1/2⟩ (some 1) 1000 ⟨some 0, some 0, 0⟩ = true := by
  constructor
  · exact C5_refractory.2.1 ⟨true, 1, 1, 1/2⟩ ⟨some 0, some 0, 0⟩
      [(some 1, 1000), (some 2, 1300)] 0 1 (by norm_num)
      (by norm_num [firedList, onsetFired, beatStep, jgt, jsub, jdiv, jmul])
      (by norm_num [firedList, onsetFired, beatStep, jgt, jsub, jdiv, jmul])
  · exact (C5_refractory.1 ⟨true, 1, 1, 1/2⟩ 1 0 1000 ⟨some 0, some 0, 0⟩ rfl
      (by norm_num)).mpr ⟨rfl, by norm_num, by norm_num⟩

/-- A run of enabled, non-firing frames multiplies the (finite) intensity by
`decay` once per frame. -/
lemma runBeat_no_fire_decay (bs : BeatSettings) (he : bs.enabled = true) :
    ∀ (frames : List (JSNum × ℚ)) (s : BeatState) (q : ℚ),
      firedList bs s frames = List.replicate frames.length false →
      s.beatIntensity = some q →
      (runBeat bs s frames).beatIntensity = some (q * bs.decay ^ frames.length) := by
  intro frames
  induction frames with
  | nil =>
      intro s q hf hq
      simpa [runBeat] using hq
  | cons f rest ih =>
      intro s q hf hq
      obtain ⟨rb, t⟩ := f
      have hf2 : onsetFired bs rb t s = false ∧
          firedList bs (beatStep bs rb t s) rest = List.replicate rest.length false := by
        rw [firedList, List.length_cons, List.replicate_succ] at hf
        exact ⟨List.head_eq_of_cons_eq hf, List.tail_eq_of_cons_eq hf⟩
      have hstep := (beatStep_not_fired bs rb t s he hf2.1).1
      rw [hq] at hstep
      have : (beatStep bs rb t s).beatIntensity = some (q * bs.decay) := by
        simpa [jmul] using hstep
      have := ih (beatStep bs rb t s) (q * bs.decay) hf2.2 this
      rw [runBeat, this, List.length_cons]
      ring_nf

/-- C3 (corrected): at a detected onset the internal intensity is set to 1.0
but the per-frame decay multiplication runs after the trigger in the same
step, so the published `beatIntensity` at the trigger frame is `1 × decay`,
and after n further onset-free frames it is `decay^(n+1)`; between onsets an
enabled, non-firing frame never increases a finite non-negative intensity
when `decay ∈ [0,1]`. -/
theorem C3_beat_decay :
    ∀ (bs : BeatSettings) (s : BeatState) (rb : JSNum) (now : ℚ)
      (rest : List (JSNum × ℚ)),
      bs.enabled = true →
      firedList bs s ((rb, now) :: rest) = true :: List.replicate rest.length false →
      (beatStep bs rb now s).beatIntensity = some (1 * bs.decay) ∧
      (runBeat bs s ((rb, now) :: rest)).beatIntensity = some (bs.decay ^ (rest.length + 1)) ∧
      (∀ (q : ℚ) (s2 : BeatState) (rb2 : JSNum) (now2 : ℚ),
          onsetFired bs rb2 now2 s2 = false → s2.beatIntensity = some q →
          0 ≤ q → 0 ≤ bs.decay → bs.decay ≤ 1 →
          ∃ q2, (beatStep bs rb2 now2 s2).beatIntensity = some q2 ∧ q2 ≤ q ∧ 0 ≤ q2) := by
  intro bs s rb now rest he hf
  have hf2 : onsetFired bs rb now s = true ∧
      firedList bs (beatStep bs rb now s) rest = List.replicate rest.length false := by
    rw [firedList] at hf
    exact ⟨List.head_eq_of_cons_eq hf, List.tail_eq_of_cons_eq hf⟩
  have hstep := (beatStep_fired bs rb now s hf2.1).1
  refine ⟨hstep, ?_, ?_⟩
  · have := runBeat_no_fire_decay bs he rest (beatStep bs rb now s) (1 * bs.decay) hf2.2 hstep
    rw [runBeat, this]
    ring_nf
  · intro q s2 rb2 now2 hns hq hq0 hd0 hd1
    have := (beatStep_not_fired bs rb2 now2 s2 he hns).1
    rw [hq] at this
    refine ⟨q * bs.decay, by simpa [jmul] using this, ?_, by positivity⟩
    exact mul_le_of_le_one_right hq0 hd1

/-- C3 witness: with decay 1/2, the trigger frame publishes `1 × 1/2` and
one further onset-free frame publishes `(1/2)^2`. -/
theorem C3_beat_decay_witness :
    (beatStep ⟨true, 1, 1, 1/2⟩ (some 1) 300 ⟨some 0, some 0, 0⟩).beatIntensity
        = some (1 * (1/2 : ℚ)) ∧
    (runBeat ⟨true, 1, 1, 1/2⟩ ⟨some 0, some 0, 0⟩
        [(some 1, 300), (some 1, 350)]).beatIntensity = some ((1/2 : ℚ) ^ 2) := by
  have h := C3_beat_decay ⟨true, 1, 1, 1/2⟩ ⟨some 0, some 0, 0⟩ (some 1) 300 [(some 1, 350)]
    rfl (by norm_num [firedList, onsetFired, beatStep, jgt, jsub, jdiv, jmul, List.replicate])
  exact ⟨h.1, by simpa using h.2.1⟩

/-- C3 counterexample: at a concrete detected onset with decay 1/2 the
published `beatIntensity` is 1/2, not the 1.0 the claim states — the decay
multiplication runs after the trigger within the same frame. -/
theorem C3_reset_counterexample :
    onsetFired ⟨true, 1, 1, 1/2⟩ (some 1) 300 ⟨some 0, some 0, 0⟩ = true ∧
    (beatStep ⟨true, 1, 1, 1/2⟩ (some 1) 300 ⟨some 0, some 0, 0⟩).beatIntensity
      = some (1/2 : ℚ) ∧
    some ((1 : ℚ)/2) ≠ some (1 : ℚ) := by
  refine ⟨?_, ?_, by norm_num⟩
  · norm_num [onsetFired, jgt, jsub, jdiv]
  · norm_num [beatStep, jgt, jsub, jdiv, jmul]

end MDShake

namespace MDShake

/-! ### C4: the asymmetric temporal smoother -/

/-- Rising phase: with the target at or above the start, the iterates stay at
or below the target and the residual shrinks geometrically at rate
`1 - SMOOTH_ACCUM` per frame. -/
lemma smoothIter_rising (t c0 : ℚ) (h : c0 ≤ t) :
    ∀ n, smoothIter t c0 n ≤ t ∧
      t - smoothIter t c0 n = (1 - SMOOTH_ACCUM) ^ n * (t - c0) := by
  intro n
  induction n with
  | zero => exact ⟨h, by simp [smoothIter]⟩
  | succ n ih =>
      obtain ⟨hle, hres⟩ := ih
      set c := smoothIter t c0 n with hc
      have hstep : smoothIter t c0 (n + 1) = applyMorphicSmoothing c t := rfl
      rcases lt_or_eq_of_le hle with hlt | heq
      · have : applyMorphicSmoothing c t = c + (t - c) * SMOOTH_ACCUM := by
          unfold applyMorphicSmoothing
          rw [if_pos hlt]
        rw [hstep, this]
        constructor
        · unfold SMOOTH_ACCUM
          nlinarith
        · rw [pow_succ]
          unfold SMOOTH_ACCUM at hres ⊢
          nlinarith [hres]
      · have hA : applyMorphicSmoothing c t = c + (t - c) * SMOOTH_DECAY := by
          unfold applyMorphicSmoothing
          rw [if_neg (by rw [heq]; exact lt_irrefl t)]
        have hzero : (1 - SMOOTH_ACCUM) ^ n * (t - c0) = 0 := by
          rw [← hres, heq]
          ring
        rw [hstep, hA]
        constructor
        · rw [heq]
          simp
        · rw [pow_succ]
          linear_combination (-(1 - SMOOTH_DECAY)) * heq - (1 - SMOOTH_ACCUM) * hzero
/-- Falling phase: with the target at or below the start, the iterates stay
at or above the target and the residual shrinks geometrically at rate
`1 - SMOOTH_DECAY` per frame. -/
lemma smoothIter_falling (t c0 : ℚ) (h : t ≤ c0) :
    ∀ n, t ≤ smoothIter t c0 n ∧
      smoothIter t c0 n - t = (1 - SMOOTH_DECAY) ^ n * (c0 - t) := by
  intro n
  induction n with
  | zero => exact ⟨h, by simp [smoothIter]⟩
  | succ n ih =>
      obtain ⟨hle, hres⟩ := ih
      set c := smoothIter t c0 n with hc
      have hstep : smoothIter t c0 (n + 1) = applyMorphicSmoothing c t := rfl
      have hnot : ¬ (t > c) := not_lt.mpr hle
      have : applyMorphicSmoothing c t = c + (t - c) * SMOOTH_DECAY := by
        unfold applyMorphicSmoothing
        rw [if_neg hnot]
      rw [hstep, this]
      constructor
      · unfold SMOOTH_DECAY
        nlinarith
      · rw [pow_succ]
        unfold SMOOTH_DECAY at hres ⊢
        nlinarith [hres]

/-- C4 (confirmed): the smoother's step is `current + (target − current) ×
rate` with the accumulate rate exactly when `target > current` and the
strictly smaller decay rate otherwise; against a constant target the
iterates are monotone, stay between start and target, their residual is
exactly geometric, the rising-phase residual is strictly smaller than the
falling-phase residual for the same initial gap, and the iterates converge
to the target. -/
theorem C4_smoothing :
    (∀ c t : ℚ, applyMorphicSmoothing c t =
      c + (t - c) * (if t > c then SMOOTH_ACCUM else SMOOTH_DECAY)) ∧
    SMOOTH_DECAY < SMOOTH_ACCUM ∧
    (∀ t c0 : ℚ, c0 ≤ t → ∀ n : ℕ,
        smoothIter t c0 n ≤ smoothIter t c0 (n + 1) ∧
        smoothIter t c0 n ≤ t ∧
        t - smoothIter t c0 n = (1 - SMOOTH_ACCUM) ^ n * (t - c0)) ∧
    (∀ t c0 : ℚ, t ≤ c0 → ∀ n : ℕ,
        smoothIter t c0 (n + 1) ≤ smoothIter t c0 n ∧
        t ≤ smoothIter t c0 n ∧
        smoothIter t c0 n - t = (1 - SMOOTH_DECAY) ^ n * (c0 - t)) ∧
    (∀ (g : ℚ) (n : ℕ), 0 < g → 1 ≤ n →
        (1 - SMOOTH_ACCUM) ^ n * g < (1 - SMOOTH_DECAY) ^ n * g) ∧
    (∀ t c0 ε : ℚ, 0 < ε → ∃ n : ℕ, |t - smoothIter t c0 n| < ε) := by
  refine ⟨fun c t => rfl, by norm_num [SMOOTH_ACCUM, SMOOTH_DECAY], ?_, ?_, ?_, ?_⟩
  · intro t c0 h n
    obtain ⟨hle, hres⟩ := smoothIter_rising t c0 h n
    refine ⟨?_, hle, hres⟩
    have hstep : smoothIter t c0 (n + 1) =
        applyMorphicSmoothing (smoothIter t c0 n) t := rfl
    rw [hstep]
    unfold applyMorphicSmoothing
    rcases lt_or_eq_of_le hle with hlt | heq
    · rw [if_pos hlt]
      unfold SMOOTH_ACCUM
      nlinarith
    · rw [if_neg (by rw [heq]; exact lt_irrefl t)]
      unfold SMOOTH_DECAY
      nlinarith
  · intro t c0 h n
    obtain ⟨hle, hres⟩ := smoothIter_falling t c0 h n
    refine ⟨?_, hle, hres⟩
    have hstep : smoothIter t c0 (n + 1) =
        applyMorphicSmoothing (smoothIter t c0 n) t := rfl
    rw [hstep]
    unfold applyMorphicSmoothing
    rw [if_neg (not_lt.mpr hle)]
    unfold SMOOTH_DECAY
    nlinarith
  · intro g n hg hn
    have hpow : (1 - SMOOTH_ACCUM) ^ n < (1 - SMOOTH_DECAY) ^ n :=
      pow_lt_pow_left₀ (by norm_num [SMOOTH_ACCUM, SMOOTH_DECAY])
        (by norm_num [SMOOTH_ACCUM]) (by omega)
    exact mul_lt_mul_of_pos_right hpow hg
  · intro t c0 ε hε
    rcases le_total c0 t with h | h
    · rcases eq_or_lt_of_le h with heq | hlt
      · exact ⟨0, by simp [smoothIter, ← heq, hε]⟩
      · have hg : 0 < t - c0 := by linarith
        obtain ⟨n, hn⟩ := exists_pow_lt_of_lt_one (div_pos hε hg)
          (by norm_num [SMOOTH_ACCUM] : (1 : ℚ) - SMOOTH_ACCUM < 1)
        refine ⟨n, ?_⟩
        obtain ⟨hle, hres⟩ := smoothIter_rising t c0 h n
        rw [abs_of_nonneg (by linarith), hres]
        calc (1 - SMOOTH_ACCUM) ^ n * (t - c0) < ε / (t - c0) * (t - c0) :=
              mul_lt_mul_of_pos_right hn hg
          _ = ε := div_mul_cancel₀ ε (ne_of_gt hg)
    · rcases eq_or_lt_of_le h with heq | hlt
      · exact ⟨0, by simp [smoothIter, heq, hε]⟩
      · have hg : 0 < c0 - t := by linarith
        obtain ⟨n, hn⟩ := exists_pow_lt_of_lt_one (div_pos hε hg)
          (by norm_num [SMOOTH_DECAY] : (1 : ℚ) - SMOOTH_DECAY < 1)
        refine ⟨n, ?_⟩
        obtain ⟨hle, hres⟩ := smoothIter_falling t c0 h n
        rw [abs_of_nonpos (by linarith), neg_sub, hres]
        calc (1 - SMOOTH_DECAY) ^ n * (c0 - t) < ε / (c0 - t) * (c0 - t) :=
              mul_lt_mul_of_pos_right hn hg
          _ = ε := div_mul_cancel₀ ε (ne_of_gt hg)

/-- C4 witness: from 0 toward target 1 the first smoothed value is 0.04 and
the residual after two frames is `0.96^2`; from 1 toward target 0 the
residual after two frames is `0.98^2`, strictly larger. -/
theorem C4_smoothing_witness :
    smoothIter 1 0 1 ≤ (1 : ℚ) ∧
    (1 : ℚ) - smoothIter 1 0 2 = (1 - SMOOTH_ACCUM) ^ 2 * (1 - 0) ∧
    smoothIter 0 1 2 - 0 = (1 - SMOOTH_DECAY) ^ 2 * (1 - 0) ∧
    (1 - SMOOTH_ACCUM) ^ 2 * (1 : ℚ) < (1 - SMOOTH_DECAY) ^ 2 * 1 := by
  refine ⟨(C4_smoothing.2.2.1 1 0 (by norm_num) 1).2.1,
    (C4_smoothing.2.2.1 1 0 (by norm_num) 2).2.2,
    by simpa using (C4_smoothing.2.2.2.1 0 1 (by norm_num) 2).2.2,
    C4_smoothing.2.2.2.2.1 1 2 (by norm_num) (by norm_num)⟩

end MDShake

namespace MDShake

/-! ### C1: the published state stays in the unit interval -/

/-- Field-level description of one loop iteration: the magnitude is added to
the total and to exactly the band containing the bin position, and the peak
index is either kept or set to the current bin. -/
lemma loopStep_fields (bE mE i : ℕ) (v : ℚ) (a : Accum) :
    (loopStep bE mE i v a).sum = a.sum + v ∧
    (loopStep bE mE i v a).bass = (if i < bE then a.bass + v else a.bass) ∧
    (loopStep bE mE i v a).mid =
      (if i < bE then a.mid else if i < mE then a.mid + v else a.mid) ∧
    (loopStep bE mE i v a).treble =
      (if i < bE then a.treble else if i < mE then a.treble else a.treble + v) ∧
    ((loopStep bE mE i v a).peakFreq = a.peakFreq ∨ (loopStep bE mE i v a).peakFreq = i) := by
  unfold loopStep
  by_cases hp : a.peakVal < v <;> by_cases h1 : i < bE <;> by_cases h2 : i < mE <;>
    simp [hp, h1, h2]

/-- Accumulated bounds of the bin loop: every sum grows by at most the
number of contributing bins (magnitudes are in `[0,1]`) and never shrinks,
and the peak index is either untouched or one of the visited positions. -/
lemma runLoop_bounds (bE mE : ℕ) (hbm : bE ≤ mE) :
    ∀ (vals : List ℚ) (i : ℕ) (a : Accum),
      (∀ v ∈ vals, 0 ≤ v ∧ v ≤ 1) →
      a.sum ≤ (runLoop bE mE i vals a).sum ∧
      (runLoop bE mE i vals a).sum ≤ a.sum + vals.length ∧
      a.bass ≤ (runLoop bE mE i vals a).bass ∧
      (runLoop bE mE i vals a).bass ≤ a.bass + ((bE - i : ℕ) : ℚ) ∧
      a.mid ≤ (runLoop bE mE i vals a).mid ∧
      (runLoop bE mE i vals a).mid ≤ a.mid + ((mE - max i bE : ℕ) : ℚ) ∧
      a.treble ≤ (runLoop bE mE i vals a).treble ∧
      (runLoop bE mE i vals a).treble ≤ a.treble + ((vals.length - (mE - i) : ℕ) : ℚ) ∧
      ((runLoop bE mE i vals a).peakFreq = a.peakFreq ∨
        (i ≤ (runLoop bE mE i vals a).peakFreq ∧
          (runLoop bE mE i vals a).peakFreq < i + vals.length)) := by
  intro vals
  induction vals with
  | nil =>
      intro i a h
      refine ⟨le_refl _, by simp [runLoop], le_refl _,
        le_add_of_nonneg_right (Nat.cast_nonneg _), le_refl _,
        le_add_of_nonneg_right (Nat.cast_nonneg _), le_refl _, by simp [runLoop],
        Or.inl rfl⟩
  | cons v rest ih =>
      intro i a h
      have hv := h v (List.mem_cons_self v rest)
      have hrest : ∀ w ∈ rest, 0 ≤ w ∧ w ≤ 1 :=
        fun w hw => h w (List.mem_cons_of_mem v hw)
      have hrun : runLoop bE mE i (v :: rest) a
          = runLoop bE mE (i + 1) rest (loopStep bE mE i v a) := rfl
      obtain ⟨ls_sum, ls_bass, ls_mid, ls_treble, ls_peak⟩ := loopStep_fields bE mE i v a
      obtain ⟨ih1, ih2, ih3, ih4, ih5, ih6, ih7, ih8, ih9⟩ :=
        ih (i + 1) (loopStep bE mE i v a) hrest
      rw [hrun]
      rw [List.length_cons]
      refine ⟨?_, ?_, ?_, ?_, ?_, ?_, ?_, ?_, ?_⟩
      · rw [ls_sum] at ih1
        linarith [hv.1]
      · rw [ls_sum] at ih2
        push_cast at ih2 ⊢
        linarith [hv.2]
      · rcases Nat.lt_or_ge i bE with hib | hib
        · rw [if_pos hib] at ls_bass
          rw [ls_bass] at ih3
          linarith [hv.1]
        · rw [if_neg (Nat.not_lt.mpr hib)] at ls_bass
          rw [ls_bass] at ih3
          exact ih3
      · rcases Nat.lt_or_ge i bE with hib | hib
        · rw [if_pos hib] at ls_bass
          rw [ls_bass] at ih4
          have hcast : ((bE - (i + 1) : ℕ) : ℚ) + 1 = ((bE - i : ℕ) : ℚ) := by
            exact_mod_cast congrArg (fun n : ℕ => (n : ℚ)) (by omega : bE - (i + 1) + 1 = bE - i)
          linarith [hv.2]
        · rw [if_neg (Nat.not_lt.mpr hib)] at ls_bass
          rw [ls_bass] at ih4
          have hle : ((bE - (i + 1) : ℕ) : ℚ) ≤ ((bE - i : ℕ) : ℚ) :=
            Nat.cast_le.mpr (by omega)
          linarith
      · rcases Nat.lt_or_ge i bE with hib | hib
        · rw [if_pos hib] at ls_mid
          rw [ls_mid] at ih5
          exact ih5
        · rcases Nat.lt_or_ge i mE with him | him
          · rw [if_neg (Nat.not_lt.mpr hib), if_pos him] at ls_mid
            rw [ls_mid] at ih5
            linarith [hv.1]
          · rw [if_neg (Nat.not_lt.mpr hib), if_neg (Nat.not_lt.mpr him)] at ls_mid
            rw [ls_mid] at ih5
            exact ih5
      · rcases Nat.lt_or_ge i bE with hib | hib
        · rw [if_pos hib] at ls_mid
          rw [ls_mid] at ih6
          have hle : ((mE - max (i + 1) bE : ℕ) : ℚ) ≤ ((mE - max i bE : ℕ) : ℚ) :=
            Nat.cast_le.mpr (by omega)
          linarith
        · rcases Nat.lt_or_ge i mE with him | him
          · rw [if_neg (Nat.not_lt.mpr hib), if_pos him] at ls_mid
            rw [ls_mid] at ih6
            have hcast : ((mE - max (i + 1) bE : ℕ) : ℚ) + 1
                = ((mE - max i bE : ℕ) : ℚ) := by
              exact_mod_cast congrArg (fun n : ℕ => (n : ℚ))
                (by omega : mE - max (i + 1) bE + 1 = mE - max i bE)
            linarith [hv.2]
          · rw [if_neg (Nat.not_lt.mpr hib), if_neg (Nat.not_lt.mpr him)] at ls_mid
            rw [ls_mid] at ih6
            have hle : ((mE - max (i + 1) bE : ℕ) : ℚ) ≤ ((mE - max i bE : ℕ) : ℚ) :=
              Nat.cast_le.mpr (by omega)
            linarith
      · rcases Nat.lt_or_ge i mE with him | him
        · have : (loopStep bE mE i v a).treble = a.treble := by
            rcases Nat.lt_or_ge i bE with hib | hib
            · rw [if_pos hib] at ls_treble; exact ls_treble
            · rw [if_neg (Nat.not_lt.mpr hib), if_pos him] at ls_treble; exact ls_treble
          rw [this] at ih7
          exact ih7
        · have hib : ¬ i < bE := by omega
          rw [if_neg hib, if_neg (Nat.not_lt.mpr him)] at ls_treble
          rw [ls_treble] at ih7
          linarith [hv.1]
      · rcases Nat.lt_or_ge i mE with him | him
        · have : (loopStep bE mE i v a).treble = a.treble := by
            rcases Nat.lt_or_ge i bE with hib | hib
            · rw [if_pos hib] at ls_treble; exact ls_treble
            · rw [if_neg (Nat.not_lt.mpr hib), if_pos him] at ls_treble; exact ls_treble
          rw [this] at ih8
          have hle : ((rest.length - (mE - (i + 1)) : ℕ) : ℚ)
              ≤ ((rest.length + 1 - (mE - i) : ℕ) : ℚ) :=
            Nat.cast_le.mpr (by omega)
          linarith
        · have hib : ¬ i < bE := by omega
          rw [if_neg hib, if_neg (Nat.not_lt.mpr him)] at ls_treble
          rw [ls_treble] at ih8
          have hcast : ((rest.length - (mE - (i + 1)) : ℕ) : ℚ) + 1
              ≤ ((rest.length + 1 - (mE - i) : ℕ) : ℚ) := by
            have : rest.length - (mE - (i + 1)) + 1 ≤ rest.length + 1 - (mE - i) := by omega
            exact_mod_cast Nat.cast_le.mpr this
          linarith [hv.2]
      · rcases ih9 with h9 | h9
        · rw [h9]
          rcases ls_peak with hp | hp
          · exact Or.inl hp
          · exact Or.inr (by omega)
        · exact Or.inr (by omega)

end MDShake

namespace MDShake

/-- With at least 10 bins and magnitudes in `[0,1]`, every raw band mean of
the spectral pass is finite and in `[0,1]`, and the peak index is a valid
bin position. -/
lemma spectralPass_bounds (vals : List ℚ) (hlen : 10 ≤ vals.length)
    (h : ∀ v ∈ vals, 0 ≤ v ∧ v ≤ 1) :
    inUnit (spectralPass vals).rawVol ∧
    inUnit (spectralPass vals).rawBass ∧
    inUnit (spectralPass vals).rawMid ∧
    inUnit (spectralPass vals).rawTreble ∧
    (spectralPass vals).peakFreq < vals.length := by
  have hbE : bEnd vals.length = vals.length / 10 := bEnd_eq _
  have hmE : mEnd vals.length = 4 * vals.length / 10 := mEnd_eq _
  have hbm : bEnd vals.length ≤ mEnd vals.length := by omega
  have hb1 : 1 ≤ bEnd vals.length := by omega
  have hm1 : 1 ≤ mEnd vals.length - bEnd vals.length := by omega
  have ht1 : 1 ≤ vals.length - mEnd vals.length := by omega
  have hml : mEnd vals.length ≤ vals.length := by omega
  obtain ⟨h1, h2, h3, h4, h5, h6, h7, h8, h9⟩ :=
    runLoop_bounds (bEnd vals.length) (mEnd vals.length) hbm vals 0 initAccum h
  set a := runLoop (bEnd vals.length) (mEnd vals.length) 0 vals initAccum with ha
  have hsum0 : (0 : ℚ) ≤ a.sum := by simpa [initAccum] using h1
  have hsum1 : a.sum ≤ vals.length := by simpa [initAccum] using h2
  have hbass0 : (0 : ℚ) ≤ a.bass := by simpa [initAccum] using h3
  have hbass1 : a.bass ≤ (bEnd vals.length : ℚ) := by simpa [initAccum] using h4
  have hmid0 : (0 : ℚ) ≤ a.mid := by simpa [initAccum] using h5
  have hmid1 : a.mid ≤ ((mEnd vals.length - bEnd vals.length : ℕ) : ℚ) := by
    simpa [initAccum] using h6
  have htre0 : (0 : ℚ) ≤ a.treble := by simpa [initAccum] using h7
  have htre1 : a.treble ≤ ((vals.length - mEnd vals.length : ℕ) : ℚ) := by
    simpa [initAccum] using h8
  have hpk : a.peakFreq < vals.length := by
    rcases h9 with h9 | h9
    · rw [h9]
      simp only [initAccum]
      omega
    · omega
  have hlenq : (0 : ℚ) < (vals.length : ℚ) := by
    exact_mod_cast (by omega : 0 < vals.length)
  have hbEq : (0 : ℚ) < ((bEnd vals.length : ℕ) : ℚ) := by exact_mod_cast hb1
  have hmidq : (0 : ℚ) < ((mEnd vals.length : ℕ) : ℚ) - ((bEnd vals.length : ℕ) : ℚ) := by
    have : ((bEnd vals.length : ℕ) : ℚ) < ((mEnd vals.length : ℕ) : ℚ) := by
      exact_mod_cast (by omega : bEnd vals.length < mEnd vals.length)
    linarith
  have htreq : (0 : ℚ) < ((vals.length : ℕ) : ℚ) - ((mEnd vals.length : ℕ) : ℚ) := by
    have : ((mEnd vals.length : ℕ) : ℚ) < ((vals.length : ℕ) : ℚ) := by
      exact_mod_cast (by omega : mEnd vals.length < vals.length)
    linarith
  have hsp : spectralPass vals = ⟨jdiv (some a.sum) (some (vals.length : ℚ)),
      jdiv (some a.bass) (some ((bEnd vals.length : ℕ) : ℚ)),
      jdiv (some a.mid) (some (((mEnd vals.length : ℕ) : ℚ) - ((bEnd vals.length : ℕ) : ℚ))),
      jdiv (some a.treble) (some (((vals.length : ℕ) : ℚ) - ((mEnd vals.length : ℕ) : ℚ))),
      a.peakFreq⟩ := rfl
  rw [hsp]
  refine ⟨?_, ?_, ?_, ?_, hpk⟩
  · refine ⟨a.sum / vals.length, by simp [jdiv, ne_of_gt hlenq], ?_, ?_⟩
    · exact div_nonneg hsum0 (le_of_lt hlenq)
    · rw [div_le_one hlenq]
      exact hsum1
  · refine ⟨a.bass / (bEnd vals.length : ℚ), by simp [jdiv, ne_of_gt hbEq], ?_, ?_⟩
    · exact div_nonneg hbass0 (le_of_lt hbEq)
    · rw [div_le_one hbEq]
      exact hbass1
  · refine ⟨a.mid / ((mEnd vals.length : ℚ) - (bEnd vals.length : ℚ)),
      by simp [jdiv, ne_of_gt hmidq], ?_, ?_⟩
    · exact div_nonneg hmid0 (le_of_lt hmidq)
    · rw [div_le_one hmidq]
      calc a.mid ≤ ((mEnd vals.length - bEnd vals.length : ℕ) : ℚ) := hmid1
        _ = (mEnd vals.length : ℚ) - (bEnd vals.length : ℚ) := Nat.cast_sub hbm
  · refine ⟨a.treble / ((vals.length : ℚ) - (mEnd vals.length : ℚ)),
      by simp [jdiv, ne_of_gt htreq], ?_, ?_⟩
    · exact div_nonneg htre0 (le_of_lt htreq)
    · rw [div_le_one htreq]
      calc a.treble ≤ ((vals.length - mEnd vals.length : ℕ) : ℚ) := htre1
        _ = (vals.length : ℚ) - (mEnd vals.length : ℚ) := Nat.cast_sub hml

/-- One smoothing step keeps values in the unit interval. -/
lemma applyMorphicSmoothing_unit {c t : ℚ} (hc0 : 0 ≤ c) (hc1 : c ≤ 1)
    (ht0 : 0 ≤ t) (ht1 : t ≤ 1) :
    0 ≤ applyMorphicSmoothing c t ∧ applyMorphicSmoothing c t ≤ 1 := by
  unfold applyMorphicSmoothing SMOOTH_ACCUM SMOOTH_DECAY
  split_ifs with h <;> constructor <;> nlinarith

/-- The JS smoothing step preserves the unit interval. -/
lemma applyMorphicSmoothingJS_unit {c t : JSNum} (hc : inUnit c) (ht : inUnit t) :
    inUnit (applyMorphicSmoothingJS c t) := by
  obtain ⟨qc, hqc, hc0, hc1⟩ := hc
  obtain ⟨qt, hqt, ht0, ht1⟩ := ht
  rw [hqc, hqt]
  exact ⟨applyMorphicSmoothing qc qt, rfl, applyMorphicSmoothing_unit hc0 hc1 ht0 ht1⟩

/-- One beat step keeps the published intensity in the unit interval when
the decay factor lies in `[0,1]`. -/
lemma beatStep_intensity_unit (bs : BeatSettings) (rb : JSNum) (now : ℚ) (s : BeatState)
    (h : inUnit s.beatIntensity) (hd0 : 0 ≤ bs.decay) (hd1 : bs.decay ≤ 1) :
    inUnit (beatStep bs rb now s).beatIntensity := by
  obtain ⟨q, hq, h0, h1⟩ := h
  rcases he : bs.enabled with _ | _
  · unfold beatStep
    simp only [he, Bool.false_eq_true, if_false]
    exact ⟨0, rfl, le_refl 0, by norm_num⟩
  · rcases hcond : (jgt (jsub rb s.lastBassEnergy)
        (jdiv (some ((4 : ℚ) / 10)) (some bs.sensitivity)) &&
        decide (now - s.beatTimer > 200)) with _ | _
    · unfold beatStep
      simp only [he, if_true, hcond, Bool.false_eq_true, if_false]
      rw [hq]
      exact ⟨q * bs.decay, rfl, mul_nonneg h0 hd0,
        mul_le_one₀ h1 hd0 hd1⟩
    · unfold beatStep
      simp only [he, if_true, hcond, if_true]
      exact ⟨1 * bs.decay, rfl, by linarith [mul_nonneg (by norm_num : (0:ℚ) ≤ 1) hd0],
        by linarith [one_mul bs.decay]⟩

/-- C1 (corrected): with a snapshot of at least 10 bins whose magnitudes lie
in `[0,1]`, a previous published state inside `[0,1]`, and a decay factor in
`[0,1]`, every numeric field of the `VoiceState` returned by `getAudioState`
is finite and lies in `[0,1]`.  (Mere non-emptiness is not enough: snapshots
of fewer than 10 bins make the bass channel non-finite.) -/
theorem C1_unit_interval :
    ∀ (bs : BeatSettings) (es : EngineState) (vals : List ℚ) (now : ℚ),
      10 ≤ vals.length →
      (∀ v ∈ vals, 0 ≤ v ∧ v ≤ 1) →
      stateInUnit es.state →
      0 ≤ bs.decay → bs.decay ≤ 1 →
      stateInUnit (getAudioState bs ⟨true, vals, now⟩ es).1 := by
  intro bs es vals now hlen hv hs hd0 hd1
  obtain ⟨hV, hP, hB, hM, hT, hI⟩ := hs
  obtain ⟨rv, rb, rm, rt, hpk⟩ := spectralPass_bounds vals hlen hv
  have hred : (getAudioState bs ⟨true, vals, now⟩ es).1 =
      { volume := applyMorphicSmoothingJS es.state.volume (spectralPass vals).rawVol
        pitch := applyMorphicSmoothingJS es.state.pitch
          (jdiv (some ((spectralPass vals).peakFreq : ℚ)) (some (vals.length : ℚ)))
        bass := applyMorphicSmoothingJS es.state.bass (spectralPass vals).rawBass
        mid := applyMorphicSmoothingJS es.state.mid (spectralPass vals).rawMid
        treble := applyMorphicSmoothingJS es.state.treble (spectralPass vals).rawTreble
        silence := jlt (spectralPass vals).rawVol (some (5 / 1000))
        beatIntensity := (beatStep bs (spectralPass vals).rawBass now
          ⟨es.state.beatIntensity, es.lastBassEnergy, es.beatTimer⟩).beatIntensity } := rfl
  rw [hred]
  have hlenq : (0 : ℚ) < (vals.length : ℚ) := by exact_mod_cast (by omega : 0 < vals.length)
  have hpitch : inUnit (jdiv (some ((spectralPass vals).peakFreq : ℚ))
      (some (vals.length : ℚ))) := by
    refine ⟨((spectralPass vals).peakFreq : ℚ) / (vals.length : ℚ),
      by simp [jdiv, ne_of_gt hlenq], div_nonneg (Nat.cast_nonneg _) (le_of_lt hlenq), ?_⟩
    rw [div_le_one hlenq]
    exact_mod_cast le_of_lt hpk
  exact ⟨applyMorphicSmoothingJS_unit hV rv, applyMorphicSmoothingJS_unit hP hpitch,
    applyMorphicSmoothingJS_unit hB rb, applyMorphicSmoothingJS_unit hM rm,
    applyMorphicSmoothingJS_unit hT rt,
    beatStep_intensity_unit bs (spectralPass vals).rawBass now
      ⟨es.state.beatIntensity, es.lastBassEnergy, es.beatTimer⟩ hI hd0 hd1⟩

/-- C1 counterexample: the claim fails as stated for non-empty snapshots —
the concrete 1-bin snapshot `[1/2]` satisfies all of the claim's hypotheses
(non-empty, magnitudes in `[0,1]`, prior state in `[0,1]`, decay in `[0,1]`)
yet the returned bass channel is non-finite, not a value in `[0,1]`. -/
theorem C1_unit_interval_counterexample :
    ([(1 : ℚ)/2] ≠ []) ∧
    (∀ v ∈ [(1 : ℚ)/2], 0 ≤ v ∧ v ≤ 1) ∧
    stateInUnit initEngineState.state ∧
    (0 ≤ (1 : ℚ)/2 ∧ (1 : ℚ)/2 ≤ 1) ∧
    ¬ inUnit (getAudioState ⟨true, 1, 1, 1/2⟩ ⟨true, [1/2], 0⟩ initEngineState).1.bass := by
  refine ⟨by simp, ?_, ?_, by norm_num, ?_⟩
  · intro v hv
    rw [List.mem_singleton] at hv
    rw [hv]
    norm_num
  · exact ⟨⟨0, rfl, le_refl 0, by norm_num⟩, ⟨0, rfl, le_refl 0, by norm_num⟩,
      ⟨0, rfl, le_refl 0, by norm_num⟩, ⟨0, rfl, le_refl 0, by norm_num⟩,
      ⟨0, rfl, le_refl 0, by norm_num⟩, ⟨0, rfl, le_refl 0, by norm_num⟩⟩
  · have := (short_snapshot_bass_none ⟨true, 1, 1, 1/2⟩ initEngineState [1/2] 0
      (by simp) (by simp)).2.2.1
    rw [this]
    exact not_inUnit_none

/-- C1 witness: a concrete 10-bin snapshot of magnitude 1/2 from the initial
state lands every published numeric field in `[0,1]`. -/
theorem C1_unit_interval_witness :
    stateInUnit (getAudioState ⟨true, 1, 1, 1/2⟩
      ⟨true, List.replicate 10 (1/2), 0⟩ initEngineState).1 := by
  refine C1_unit_interval ⟨true, 1, 1, 1/2⟩ initEngineState (List.replicate 10 (1/2)) 0
    (by simp) ?_ ?_ (by norm_num) (by norm_num)
  · intro v hv
    rw [List.eq_of_mem_replicate hv]
    norm_num
  · exact ⟨⟨0, rfl, le_refl 0, by norm_num⟩, ⟨0, rfl, le_refl 0, by norm_num⟩,
      ⟨0, rfl, le_refl 0, by norm_num⟩, ⟨0, rfl, le_refl 0, by norm_num⟩,
      ⟨0, rfl, le_refl 0, by norm_num⟩, ⟨0, rfl, le_refl 0, by norm_num⟩⟩

end MDShake

namespace MDShake

/-! ### C7: the offline tempo estimate -/

/-- Retained intervals lie strictly between 0.3 s and 1.5 s. -/
lemma retainedIntervals_mem {peaks : List ℚ} {d : ℚ} (h : d ∈ retainedIntervals peaks) :
    3/10 < d ∧ d < 3/2 := by
  unfold retainedIntervals at h
  obtain ⟨-, hp⟩ := List.mem_filter.mp h
  rw [Bool.and_eq_true, decide_eq_true_iff, decide_eq_true_iff] at hp
  exact hp

/-- Summing values of `[3/10, 3/2]` bounds the total by those multiples of
the count. -/
lemma sum_bounds_of_mem (l : List ℚ) (h : ∀ d ∈ l, 3/10 ≤ d ∧ d ≤ 3/2) :
    (3/10 : ℚ) * l.length ≤ l.sum ∧ l.sum ≤ (3/2 : ℚ) * l.length := by
  induction l with
  | nil => simp
  | cons d rest ih =>
      have hd := h d (List.mem_cons_self d rest)
      have hrest := ih (fun w hw => h w (List.mem_cons_of_mem d hw))
      rw [List.sum_cons, List.length_cons]
      push_cast
      constructor <;> nlinarith [hrest.1, hrest.2, hd.1, hd.2]

/-- The while loop `tempo *= 2` leaves values at or above 70 alone. -/
lemma foldUp_of_ge {t : ℚ} (h : 70 ≤ t) : foldUp t = t := by
  rw [foldUp]
  rw [dif_neg]
  rintro ⟨-, h2⟩
  linarith

/-- One doubling step of the `tempo *= 2` loop. -/
lemma foldUp_step {t : ℚ} (h0 : 0 < t) (h : t < 70) : foldUp t = foldUp (2 * t) := by
  rw [foldUp, dif_pos ⟨h0, h⟩]

/-- From `[40, 200]` the doubling loop lands in `[70, 200]`. -/
lemma foldUp_range {t : ℚ} (h1 : 40 ≤ t) (h2 : t ≤ 200) :
    70 ≤ foldUp t ∧ foldUp t ≤ 200 := by
  rcases lt_or_ge t 70 with h | h
  · rw [foldUp_step (by linarith) h, foldUp_of_ge (by linarith)]
    constructor <;> linarith
  · rw [foldUp_of_ge h]
    exact ⟨h, h2⟩

/-- The while loop `tempo /= 2` leaves values at or below 180 alone. -/
lemma foldDown_of_le {t : ℚ} (h : t ≤ 180) : foldDown t = t := by
  rw [foldDown, dif_neg (by linarith)]

/-- One halving step of the `tempo /= 2` loop. -/
lemma foldDown_step {t : ℚ} (h : 180 < t) : foldDown t = foldDown (t / 2) := by
  rw [foldDown, dif_pos h]

/-- From `[70, 200]` the halving loop lands in the canonical `[70, 180]`. -/
lemma foldDown_range {t : ℚ} (h1 : 70 ≤ t) (h2 : t ≤ 200) :
    70 ≤ foldDown t ∧ foldDown t ≤ 180 := by
  rcases le_or_lt t 180 with h | h
  · rw [foldDown_of_le h]
    exact ⟨h1, h⟩
  · rw [foldDown_step h, foldDown_of_le (by linarith)]
    constructor <;> linarith

/-- The non-default branch of the tempo estimate. -/
lemma tempoFromPeaks_of_intervals (peaks : List ℚ) (hlen : 1 < peaks.length)
    (hne : retainedIntervals peaks ≠ []) :
    tempoFromPeaks peaks = foldDown (foldUp
      (60 / ((retainedIntervals peaks).sum / ((retainedIntervals peaks).length : ℚ)))) := by
  unfold tempoFromPeaks
  rw [if_pos hlen, if_pos (List.length_pos.mpr hne)]

/-- C7 (confirmed): the tempo estimate retains only inter-peak intervals
inside `[0.3 s, 1.5 s]` (the code keeps the open interval), averages them and
sets `tempo = 60 / avgInterval` folded by doubling below 70 and halving above
180 into `[70, 180]`; it defaults to 120 BPM with fewer than two peaks or no
retained interval; peaks 1.2 s apart yield 100 BPM and peaks 0.25 s apart
yield 120 BPM. -/
theorem C7_tempo_estimate :
    (∀ (peaks : List ℚ), ∀ d ∈ retainedIntervals peaks, 3/10 ≤ d ∧ d ≤ 3/2) ∧
    (∀ peaks : List ℚ, peaks.length ≤ 1 → tempoFromPeaks peaks = 120) ∧
    (∀ peaks : List ℚ, retainedIntervals peaks = [] → tempoFromPeaks peaks = 120) ∧
    (∀ peaks : List ℚ, 1 < peaks.length → retainedIntervals peaks ≠ [] →
        tempoFromPeaks peaks = foldDown (foldUp
          (60 / ((retainedIntervals peaks).sum / ((retainedIntervals peaks).length : ℚ)))) ∧
        70 ≤ tempoFromPeaks peaks ∧ tempoFromPeaks peaks ≤ 180) ∧
    tempoFromPeaks [0, 6/5, 12/5] = 100 ∧
    tempoFromPeaks [0, 1/4, 1/2, 3/4] = 120 := by
  refine ⟨?_, ?_, ?_, ?_, ?_, ?_⟩
  · intro peaks d hd
    have := retainedIntervals_mem hd
    exact ⟨le_of_lt this.1, le_of_lt this.2⟩
  · intro peaks h
    unfold tempoFromPeaks
    rw [if_neg (by omega)]
  · intro peaks h
    unfold tempoFromPeaks
    rcases Nat.lt_or_ge 1 peaks.length with hl | hl
    · rw [if_pos hl, if_neg (by rw [h]; simp)]
    · rw [if_neg (by omega)]
  · intro peaks hlen hne
    have heq := tempoFromPeaks_of_intervals peaks hlen hne
    refine ⟨heq, ?_⟩
    set l := retainedIntervals peaks with hl
    have hmem : ∀ d ∈ l, (3/10 : ℚ) ≤ d ∧ d ≤ 3/2 := by
      intro d hd
      have := retainedIntervals_mem hd
      exact ⟨le_of_lt this.1, le_of_lt this.2⟩
    have hlpos : 0 < l.length := List.length_pos.mpr hne
    have hlq : (0 : ℚ) < (l.length : ℚ) := by exact_mod_cast hlpos
    obtain ⟨hs1, hs2⟩ := sum_bounds_of_mem l hmem
    have havg1 : (3/10 : ℚ) ≤ l.sum / (l.length : ℚ) := by
      rw [le_div_iff₀ hlq]
      linarith
    have havg2 : l.sum / (l.length : ℚ) ≤ 3/2 := by
      rw [div_le_iff₀ hlq]
      linarith
    have havgpos : (0 : ℚ) < l.sum / (l.length : ℚ) := by linarith
    have ht1 : (40 : ℚ) ≤ 60 / (l.sum / (l.length : ℚ)) := by
      rw [le_div_iff₀ havgpos]
      linarith
    have ht2 : 60 / (l.sum / (l.length : ℚ)) ≤ 200 := by
      rw [div_le_iff₀ havgpos]
      linarith
    obtain ⟨hu1, hu2⟩ := foldUp_range ht1 ht2
    obtain ⟨hd1, hd2⟩ := foldDown_range hu1 hu2
    rw [heq]
    exact ⟨hd1, hd2⟩
  · have hp : pairDiffs [(0 : ℚ), 6/5, 12/5] = [6/5 - 0, 12/5 - 6/5] := rfl
    have hint : retainedIntervals [0, 6/5, 12/5] = [6/5, 6/5] := by
      unfold retainedIntervals
      rw [hp]
      norm_num [List.filter_cons]
    rw [tempoFromPeaks_of_intervals [0, 6/5, 12/5] (by norm_num)
      (by rw [hint]; exact List.cons_ne_nil _ _), hint]
    have h50 : (60 : ℚ) / (((6:ℚ)/5 + (6/5 + 0)) / ((2 : ℕ) : ℚ)) = 50 := by norm_num
    simp only [List.sum_cons, List.sum_nil, List.length_cons, List.length_nil]
    rw [show ((0 : ℕ) + 1 + 1 : ℕ) = 2 from rfl, h50]
    rw [foldUp_step (by norm_num) (by norm_num)]
    norm_num
    rw [foldUp_of_ge (by norm_num), foldDown_of_le (by norm_num)]
  · unfold tempoFromPeaks
    rw [if_pos (by norm_num)]
    have hp : pairDiffs [(0 : ℚ), 1/4, 1/2, 3/4] = [1/4 - 0, 1/2 - 1/4, 3/4 - 1/2] := rfl
    have hint : retainedIntervals [0, 1/4, 1/2, 3/4] = [] := by
      unfold retainedIntervals
      rw [hp]
      norm_num [List.filter_cons]
    rw [hint]
    simp

/-- C7 witness: a single peak defaults to 120 BPM, and the 1.2 s-spaced run
satisfies the non-default branch's hypotheses, landing in `[70, 180]`. -/
theorem C7_tempo_estimate_witness :
    tempoFromPeaks [(5 : ℚ)] = 120 ∧
    (70 ≤ tempoFromPeaks [0, 6/5, 12/5] ∧ tempoFromPeaks [0, 6/5, 12/5] ≤ 180) := by
  constructor
  · exact C7_tempo_estimate.2.1 [(5 : ℚ)] (by norm_num)
  · have hp : pairDiffs [(0 : ℚ), 6/5, 12/5] = [6/5 - 0, 12/5 - 6/5] := rfl
    have hint : retainedIntervals [0, 6/5, 12/5] = [6/5, 6/5] := by
      unfold retainedIntervals
      rw [hp]
      norm_num [List.filter_cons]
    exact (C7_tempo_estimate.2.2.2.1 [0, 6/5, 12/5] (by norm_num)
      (by rw [hint]; exact List.cons_ne_nil _ _)).2

end MDShake
